import Mathlib

/-!
# Verification of `@daaku/kombat-indexed-db`

A shallow embedding, in Lean 4, of the local persistence and reactive-mirror
layer of the `kombat-indexed-db` repository (`src/index.ts`: `LocalIndexedDB`,
`syncDatasetMem`, `loadDatasetMem`; `src/store.ts`: `DBProxy`, `DatasetProxy`,
`RowProxy`).

Modelling conventions:

* JavaScript values that can flow through the store are modelled by the
  inductive type `Val` (null, undefined, booleans, numbers, strings and
  plain objects).  Objects are association lists in property-insertion
  order, mirroring JavaScript's own-property ordering for string keys.
* IndexedDB object stores are modelled as association lists keyed by their
  primary key; `get` is lookup and `put` is insert-or-replace.  The code
  runs every multi-step operation inside one IndexedDB transaction, and a
  transaction executes its requests in issuance order.  A `storeMessages`
  batch is therefore modelled in that order: all of the batch's gets are
  issued (by `Promise.all` over `messages.map(async ...)`) before any put
  executes, so every get reads the pre-batch state, and the puts then land
  in batch order (see `storeMessages` below for the full derivation).
* `structuredClone` is the identity in this pure model: values are
  immutable terms, so the aliasing that the clone prevents is unobservable.
* Asynchronous functions are modelled by their net effect on the state:
  explicit state passing, with emitted messages returned alongside the new
  state.  Proxy trap handlers that throw are modelled with `Except String`.
-/

namespace KombatIndexedDB

/-- A JavaScript value, as storable by the library: `null`, `undefined`,
booleans, (integer) numbers, strings and plain objects.  Object fields are
listed in property-insertion order. -/
inductive Val where
  | null : Val
  | undefined : Val
  | bool : Bool → Val
  | num : Int → Val
  | str : String → Val
  | obj : List (String × Val) → Val
deriving Repr

mutual
/-- Boolean structural equality on `Val` (backs the `DecidableEq` instance). -/
def valBeq : Val → Val → Bool
  | .null, .null => true
  | .undefined, .undefined => true
  | .bool a, .bool b => a == b
  | .num a, .num b => a == b
  | .str a, .str b => a == b
  | .obj fs, .obj gs => valBeqFields fs gs
  | _, _ => false

/-- Boolean structural equality on object field lists. -/
def valBeqFields : List (String × Val) → List (String × Val) → Bool
  | [], [] => true
  | (k, v) :: fs, (l, w) :: gs => k == l && valBeq v w && valBeqFields fs gs
  | _, _ => false
end

mutual
theorem valBeq_iff : ∀ a b : Val, valBeq a b = true ↔ a = b
  | .null, .null => by simp [valBeq]
  | .undefined, .undefined => by simp [valBeq]
  | .bool a, .bool b => by simp [valBeq]
  | .num a, .num b => by simp [valBeq]
  | .str a, .str b => by simp [valBeq]
  | .obj fs, .obj gs => by
    simp [valBeq, valBeqFields_iff fs gs]
  | .null, .undefined | .null, .bool _ | .null, .num _ | .null, .str _ | .null, .obj _
  | .undefined, .null | .undefined, .bool _ | .undefined, .num _ | .undefined, .str _ | .undefined, .obj _
  | .bool _, .null | .bool _, .undefined | .bool _, .num _ | .bool _, .str _ | .bool _, .obj _
  | .num _, .null | .num _, .undefined | .num _, .bool _ | .num _, .str _ | .num _, .obj _
  | .str _, .null | .str _, .undefined | .str _, .bool _ | .str _, .num _ | .str _, .obj _
  | .obj _, .null | .obj _, .undefined | .obj _, .bool _ | .obj _, .num _ | .obj _, .str _ => by
    simp [valBeq]

theorem valBeqFields_iff : ∀ fs gs : List (String × Val), valBeqFields fs gs = true ↔ fs = gs
  | [], [] => by simp [valBeqFields]
  | (k, v) :: fs, (l, w) :: gs => by
    simp [valBeqFields, valBeq_iff v w, valBeqFields_iff fs gs, and_assoc]
  | [], _ :: _ => by simp [valBeqFields]
  | _ :: _, [] => by simp [valBeqFields]
end

instance : DecidableEq Val := fun a b => decidable_of_iff _ (valBeq_iff a b)

/-- Lookup in an association list (first match), i.e. reading a key of a
JavaScript object / IndexedDB store, distinguishing absence from `undefined`. -/
def alookup {α : Type} : List (String × α) → String → Option α
  | [], _ => none
  | (k, v) :: rest, key => if k = key then some v else alookup rest key

/-- Writing `o[key] = v` on a JavaScript object / `put` on a keyed store: replace the
value at an existing key in place, or append a new key at the end. -/
def aset {α : Type} : List (String × α) → String → α → List (String × α)
  | [], key, v => [(key, v)]
  | (k, w) :: rest, key, v =>
    if k = key then (k, v) :: rest else (k, w) :: aset rest key v

/-- Reading a property of a JavaScript object: an absent key reads as
`undefined`. -/
def jsGet (o : List (String × Val)) (key : String) : Val :=
  (alookup o key).getD .undefined

/-- JavaScript truthiness of a `Val`. -/
def jsTruthy : Val → Bool
  | .null => false
  | .undefined => false
  | .bool b => b
  | .num n => n != 0
  | .str s => s != ""
  | .obj _ => true

/-- Predicate `isPrimitive` from `src/store.ts`: objects are primitive only when they
are `null`; everything else (that is not a function, which `Val` does not
represent) is primitive. -/
def isPrimitive : Val → Bool
  | .obj _ => false
  | _ => true

/-- The `typeof` of a `Val` (used in the row accessor's error message). -/
def jsTypeof : Val → String
  | .null => "object"
  | .undefined => "undefined"
  | .bool _ => "boolean"
  | .num _ => "number"
  | .str _ => "string"
  | .obj _ => "object"

/-- String interpolation of a `Val` (used in the row accessor's error
message); a plain object interpolates as `[object Object]`. -/
def jsString : Val → String
  | .null => "null"
  | .undefined => "undefined"
  | .bool b => if b then "true" else "false"
  | .num n => toString n
  | .str s => s
  | .obj _ => "[object Object]"

mutual
/-- The `dequal` deep-equality used by `DatasetProxy.set` to diff columns:
primitives compare by value; objects are deep-equal when they have the same
number of keys and every key of the first maps to a deep-equal value in the
second. -/
def dequal : Val → Val → Bool
  | .null, .null => true
  | .undefined, .undefined => true
  | .bool a, .bool b => a == b
  | .num a, .num b => a == b
  | .str a, .str b => a == b
  | .obj fs, .obj gs => fs.length == gs.length && dequalFields fs gs
  | _, _ => false

/-- Every key of `fs` is present in `gs` with a `dequal` value. -/
def dequalFields : List (String × Val) → List (String × Val) → Bool
  | [], _ => true
  | (k, v) :: rest, gs =>
    (match alookup gs k with
     | some w => dequal v w
     | none => false)
    && dequalFields rest gs
end

example : dequal (.obj [("a", .num 1), ("b", .obj [("c", .str "x")])])
    (.obj [("b", .obj [("c", .str "x")]), ("a", .num 1)]) = true := by decide

example : dequal (.obj [("a", .num 1)]) (.obj [("a", .num 2)]) = false := by decide

/-! ## `LocalIndexedDB` (`src/index.ts`) -/

/-- A kombat `Message`: one column mutation, keyed by its timestamp (a
lexicographically sortable string). -/
structure Message where
  timestamp : String
  dataset : String
  row : String
  column : String
  value : Val
deriving Repr, DecidableEq

/-- Function `latestMessageKey` from `src/index.ts`: the Latest Index composite key. -/
def latestMessageKey (msg : Message) : String :=
  msg.dataset ++ ":" ++ msg.row ++ ":" ++ msg.column

/-- The three IndexedDB object stores owned by `LocalIndexedDB`:
the message log (keyed by `timestamp` via its key path), the latest-message
index (keyed by `latestMessageKey`) and the metadata store. -/
structure LocalDB where
  messageLog : List Message
  latestMessage : List (String × Message)
  messageMeta : List (String × String)
deriving Repr, DecidableEq

/-- The empty freshly-created database. -/
def LocalDB.empty : LocalDB := ⟨[], [], []⟩

/-- Operation `get` on the message log store: lookup by timestamp key. -/
def logGet (log : List Message) (ts : String) : Option Message :=
  log.find? (fun m => m.timestamp == ts)

/-- Operation `put` on the message log store (key path `timestamp`): replace the entry
with the same timestamp, or add a new one. -/
def logPut (log : List Message) (msg : Message) : List Message :=
  if log.any (fun m => m.timestamp == msg.timestamp) then
    log.map (fun m => if m.timestamp == msg.timestamp then msg else m)
  else
    log ++ [msg]

/-- One Latest Index update of `storeMessages` (`src/index.ts` lines
158-163) as it executes within the batch: the `existingLatest` get request
was issued before any latest-index put of the batch executed, so it reads
the transaction's pre-batch index `latest0`, while the conditional put
lands on the accumulating index `latest`.  The entry is written exactly
when the pre-batch entry is absent or has a strictly smaller timestamp. -/
def latestStep (latest0 : List (String × Message))
    (latest : List (String × Message)) (msg : Message) :
    List (String × Message) :=
  match alookup latest0 (latestMessageKey msg) with
  | none => aset latest (latestMessageKey msg) msg
  | some existingLatest =>
    if existingLatest.timestamp < msg.timestamp then
      aset latest (latestMessageKey msg) msg
    else latest

/-- Method `storeMessages` from `src/index.ts` (lines 145-170).  The batch
runs as `Promise.all(messages.map(async msg => ...))` inside one IndexedDB
read-write transaction.  `Array.prototype.map` starts every callback
synchronously, so every `messageLogStore.get` request is issued before any
put request, and IndexedDB executes a transaction's requests in issuance
order.  Cascading the continuations, the requests execute in four phases:
all log gets (each reading the pre-batch log), all log puts (batch order,
fresh messages only), all latest-index gets (each reading the pre-batch
index — the puts queued before them are log puts), then all latest-index
puts (batch order).  The code relies on exactly this in-transaction
snapshot behaviour elsewhere (comment in `applyChanges`, lines 126-129:
"we will not read changes made within the transaction").  Hence: a message
is fresh iff its timestamp is absent from the pre-batch log; the returned
booleans are those freshness flags in input order; the fresh messages are
put into the log in batch order (a within-batch timestamp repeat
overwrites); and each fresh message's Latest Index check compares against
the pre-batch index while its put lands on the accumulating one
(`latestStep`). -/
def storeMessages (db : LocalDB) (messages : List Message) :
    LocalDB × List Bool :=
  let fresh := messages.filter
    (fun msg => (logGet db.messageLog msg.timestamp).isNone)
  ({ messageLog := fresh.foldl logPut db.messageLog,
     latestMessage := fresh.foldl (latestStep db.latestMessage)
       db.latestMessage,
     messageMeta := db.messageMeta },
   messages.map (fun msg => (logGet db.messageLog msg.timestamp).isNone))

/-- Method `queryMessages` from `src/index.ts`: a cursor over the message log
restricted to keys `≥ since` (an IndexedDB lower-bound range, inclusive),
walked in `prev` (descending key) order.  The log store is keyed by
timestamp, so this returns the log entries with timestamp `≥ since` sorted
by timestamp descending (`tsDesc`: the `prev`-cursor key order). -/
def tsDesc (a b : Message) : Prop := b.timestamp ≤ a.timestamp

instance : DecidableRel tsDesc := fun a b =>
  inferInstanceAs (Decidable (b.timestamp ≤ a.timestamp))

instance : IsTotal Message tsDesc := ⟨fun a b => le_total b.timestamp a.timestamp⟩

instance : IsTrans Message tsDesc := ⟨fun _ _ _ hab hbc => le_trans hbc hab⟩

def queryMessages (db : LocalDB) (since : String) : List Message :=
  List.insertionSort tsDesc
    (db.messageLog.filter (fun m => since ≤ m.timestamp))

/-- Method `queryLatestMessages` from `src/index.ts`: per probe message, in input
order, the Latest Index entry at that message's cell key. -/
def queryLatestMessages (db : LocalDB) (messages : List Message) :
    List (Option Message) :=
  messages.map (fun msg => alookup db.latestMessage (latestMessageKey msg))

/-- Method `set` from `src/index.ts`: metadata put. -/
def metaSet (db : LocalDB) (key value : String) : LocalDB :=
  { db with messageMeta := aset db.messageMeta key value }

/-- Method `get` from `src/index.ts`: metadata lookup. -/
def metaGet (db : LocalDB) (key : String) : Option String :=
  alookup db.messageMeta key

/-- The nested `Changes` diff structure: dataset → row id → column → value. -/
abbrev Changes := List (String × List (String × List (String × Val)))

/-- One step of the consolidation loop in `applyChanges` (`src/index.ts`
lines 131-141): the dataset and row levels are created if missing and the
message's value is written at its column, overwriting any value a previous
message of the batch left there. -/
def applyStep (changes : Changes) (msg : Message) : Changes :=
  let dataset := (alookup changes msg.dataset).getD []
  let row := (alookup dataset msg.row).getD []
  aset changes msg.dataset (aset dataset msg.row (aset row msg.column msg.value))

/-- The consolidated `Changes` structure built by `applyChanges` from a
message batch, in batch order. -/
def consolidate (messages : List Message) : Changes :=
  messages.foldl applyStep []

/-- Method `applyChanges` from `src/index.ts`, observed through its listener
invocations: the batch is consolidated once and then `forEach` hands the
one consolidated structure to every registered listener.  Listeners are
modelled abstractly by any type `α`; the result is the list of performed
invocations (listener, payload) in the order they happen. -/
def applyChanges {α : Type} (changeListeners : List α) (messages : List Message) :
    List (α × Changes) :=
  let changes := consolidate messages
  changeListeners.foldl (fun done c => done ++ [(c, changes)]) []

/-! ## The reactive store (`src/store.ts`)

The in-memory mirror `TheStore.mem` is a nested plain object
`dataset name → row id → column → value`; the proxy handlers `DBProxy`,
`DatasetProxy` and `RowProxy` translate property operations on the virtual
`db` object into outgoing messages (handed to `SyncDB.send`, which assigns
the timestamps) plus synchronous mirror updates. -/

/-- A mirror row: column name → value, in property-insertion order. -/
abbrev Row := List (String × Val)

/-- A mirror dataset: row id → row. -/
abbrev Dataset := List (String × Row)

/-- The in-memory mirror `TheStore.mem`. -/
abbrev Mem := List (String × Dataset)

/-- An outgoing message as built by the proxy layer: like `Message` but
without a timestamp (kombat's `SyncDB.send` assigns timestamps later). -/
structure OutMessage where
  dataset : String
  row : String
  column : String
  value : Val
deriving Repr, DecidableEq

/-- The existing row that `DatasetProxy.set` diffs against:
`dataset[id] ?? {}` (the empty object when the dataset or the row is
absent). -/
def existingRow (mem : Mem) (dataset id : String) : Row :=
  (alookup ((alookup mem dataset).getD []) id).getD []

/-- The id-mismatch / id-defaulting step of `DatasetProxy.set`: a clone
carrying an `id` field keeps its fields unchanged (the caller separately
checks the field equals the row id); a clone without one gets `id` set to
the row id, which appends the property at the end. -/
def augmentId (fields : Row) (id : String) : Row :=
  match alookup fields "id" with
  | some _ => fields
  | none => aset fields "id" (.str id)

/-- Trap `DatasetProxy.set` (`src/store.ts`): writing `dataset[id] = value`.
Non-objects are rejected (`typeof value !== 'object'`); `null` passes that
check but then crashes JavaScript's `'id' in value` with a `TypeError`.  An
`id` field differing from the row id is rejected; a missing one is filled
in.  One outgoing message is built per column of the (cloned, id-augmented)
value whose value is not `dequal` to the existing row's column, followed by
one `undefined`-valued message per column of the existing row absent from
the new value; the batch is sent and then the mirror row is replaced by the
new value.  (In this pure model `structuredClone` is the identity.) -/
def datasetSet (mem : Mem) (dataset id : String) (value : Val) :
    Except String (List OutMessage × Mem) :=
  match value with
  | .obj fields =>
    match alookup fields "id" with
    | some vid =>
      if vid = .str id then
        .ok (datasetSetBody mem dataset id fields)
      else
        .error ("id mismatch in dataset \"" ++ dataset ++ "\" with row id \""
          ++ id ++ "\" and valud id " ++ jsString vid)
    | none =>
      .ok (datasetSetBody mem dataset id (aset fields "id" (.str id)))
  | .null =>
    -- JavaScript: `'id' in null` raises `TypeError: Cannot use 'in' operator`.
    .error "Cannot use 'in' operator to search for 'id' in null"
  | _ =>
    .error ("cannot use non object value in dataset \"" ++ dataset
      ++ "\" with row id \"" ++ id ++ "\"")
where
  /-- The diff-and-update part, with `fields` already id-augmented. -/
  datasetSetBody (mem : Mem) (dataset id : String) (fields : Row) :
      List OutMessage × Mem :=
    let ds := (alookup mem dataset).getD []
    let existing := (alookup ds id).getD []
    let changed := fields.filterMap (fun kv =>
      if dequal (jsGet existing kv.1) kv.2 then none
      else some ⟨dataset, id, kv.1, kv.2⟩)
    let dropped := existing.filterMap (fun kv =>
      if (alookup fields kv.1).isSome then none
      else some ⟨dataset, id, kv.1, .undefined⟩)
    (changed ++ dropped, aset mem dataset (aset ds id fields))

/-- Trap `DatasetProxy.deleteProperty` (`src/store.ts`): `delete dataset[id]`
sends one message setting the `tombstone` column to `true` and synchronously
marks the mirror row: an existing row gets `tombstone: true` added to its
columns, an absent one becomes the fresh row `{tombstone: true}`. -/
def datasetDelete (mem : Mem) (dataset id : String) : List OutMessage × Mem :=
  let msgs : List OutMessage := [⟨dataset, id, "tombstone", .bool true⟩]
  let ds := (alookup mem dataset).getD []
  let ds' :=
    match alookup ds id with
    | some row => aset ds id (aset row "tombstone" (.bool true))
    | none => aset ds id [("tombstone", .bool true)]
  (msgs, aset mem dataset ds')

/-- Trap `DatasetProxy.has`: a row id is a member exactly when the mirror row
exists and its `tombstone` column is not truthy. -/
def datasetHas (mem : Mem) (dataset id : String) : Bool :=
  match (alookup mem dataset).bind (fun ds => alookup ds id) with
  | some row => !(jsTruthy (jsGet row "tombstone"))
  | none => false

/-- Trap `DatasetProxy.ownKeys`: the ids of the mirror rows whose `tombstone`
column is not truthy, in row-insertion order. -/
def datasetOwnKeys (mem : Mem) (dataset : String) : List String :=
  let ds := (alookup mem dataset).getD []
  (ds.map Prod.fst).filter
    (fun r => !(jsTruthy (jsGet ((alookup ds r).getD []) "tombstone")))

/-- Trap `DatasetProxy.get`: reading `dataset[id]` yields a row accessor exactly
when `has` holds, and `undefined` (here `false`) otherwise — a tombstoned
or missing row reads as absent. -/
def datasetRowVisible (mem : Mem) (dataset id : String) : Bool :=
  datasetHas mem dataset id

/-- Trap `RowProxy.get` (`src/store.ts`): reading `row[prop]`.  A missing row
reads as `undefined`; a primitive own value (or an absent key, which reads
as `undefined`) is returned; an own non-primitive value is a hard error
naming the cell, its `typeof` and its string form. -/
def rowGet (mem : Mem) (dataset id prop : String) : Except String Val :=
  match (alookup mem dataset).bind (fun ds => alookup ds id) with
  | none => .ok .undefined
  | some row =>
    match alookup row prop with
    | none => .ok .undefined
    | some val =>
      if isPrimitive val then .ok val
      else
        .error ("non primitive value for dataset \"" ++ dataset
          ++ "\" row with id \"" ++ id ++ "\" and property \"" ++ prop
          ++ "\" of type \"" ++ jsTypeof val ++ "\" and value \""
          ++ jsString val ++ "\"")

/-- Trap `RowProxy.set` (`src/store.ts`): writing `row[prop] = value` performs no
validation at all: it sends one message carrying the value and then writes
it into the mirror row, creating the dataset and the row (seeded with
`id = row id`) when absent. -/
def rowSet (mem : Mem) (dataset id prop : String) (value : Val) :
    List OutMessage × Mem :=
  let msgs : List OutMessage := [⟨dataset, id, prop, value⟩]
  let ds := (alookup mem dataset).getD []
  let row := (alookup ds id).getD [("id", .str id)]
  (msgs, aset mem dataset (aset ds id (aset row prop value)))

/-- Trap `RowProxy.ownKeys`: the row's own column names, or `[]` for a missing
row. -/
def rowOwnKeys (mem : Mem) (dataset id : String) : List String :=
  match (alookup mem dataset).bind (fun ds => alookup ds id) with
  | some row => row.map Prod.fst
  | none => []

/-- Trap `RowProxy.getOwnPropertyDescriptor`: calls the `get` trap and reports a
(value, enumerable) descriptor only when the value obtained is truthy;
otherwise the property is reported as absent.  The `get` trap's
non-primitive error propagates. -/
def rowGetOwnPropertyDescriptor (mem : Mem) (dataset id prop : String) :
    Except String (Option Val) :=
  match rowGet mem dataset id prop with
  | .error e => .error e
  | .ok v => .ok (if jsTruthy v then some v else none)

/-- ECMAScript enumeration (`Object.keys`, `for...in`, `propEqual`-style
deep comparison) of a proxy: `[[OwnPropertyKeys]]` is consulted first and
each reported key is kept only if `[[GetOwnProperty]]` yields a descriptor
(`EnumerableOwnPropertyNames`).  For `RowProxy` this filters `ownKeys`
through `rowGetOwnPropertyDescriptor`. -/
def rowEnumKeysAux (mem : Mem) (dataset id : String) :
    List String → Except String (List String)
  | [] => .ok []
  | k :: rest =>
    match rowGetOwnPropertyDescriptor mem dataset id k with
    | .error e => .error e
    | .ok none => rowEnumKeysAux mem dataset id rest
    | .ok (some _) =>
      match rowEnumKeysAux mem dataset id rest with
      | .error e => .error e
      | .ok ks => .ok (k :: ks)

/-- Enumerating a row through the accessor: own keys filtered by descriptor
presence (see `rowEnumKeysAux`). -/
def rowEnumerate (mem : Mem) (dataset id : String) : Except String (List String) :=
  rowEnumKeysAux mem dataset id (rowOwnKeys mem dataset id)

/-! ### Forbidden structural operations

Each throwing trap handler of `src/store.ts` is given the signature of the
corresponding mutating operation (state in, messages-plus-state out), so
that returning `.error` states both the raised error and the absence of any
mirror mutation or message emission. -/

/-- Trap `DBProxy.set`: assigning `root[dataset] = value` always throws. -/
def dbSet (_mem : Mem) (_dataset : String) (_value : Val) :
    Except String (List OutMessage × Mem) :=
  .error "cannot set on DB"

/-- Trap `DBProxy.deleteProperty`: `delete root[dataset]` always throws. -/
def dbDelete (_mem : Mem) (_dataset : String) :
    Except String (List OutMessage × Mem) :=
  .error "cannot delete on DB"

/-- Trap `DBProxy.defineProperty` always throws. -/
def dbDefineProperty (_mem : Mem) (_dataset : String) :
    Except String (List OutMessage × Mem) :=
  .error "cannot defineProperty on DB"

/-- Trap `DatasetProxy.defineProperty` always throws, naming the dataset. -/
def datasetDefineProperty (_mem : Mem) (dataset : String) (_id : String) :
    Except String (List OutMessage × Mem) :=
  .error ("cannot defineProperty on dataset \"" ++ dataset ++ "\"")

/-- Trap `RowProxy.defineProperty` always throws, naming the dataset and the
row id. -/
def rowDefineProperty (_mem : Mem) (dataset id : String) :
    Except String (List OutMessage × Mem) :=
  .error ("cannot defineProperty on dataset \"" ++ dataset
    ++ "\" with row id " ++ id)

/-! ### Startup load (`loadDatasetMem`, `src/index.ts`) -/

/-- One record of `loadDatasetMem`'s `forEach` over the Latest Index
contents: the dataset and the row (seeded with `id` = row id) are created
when missing, and the record's value is written at its column. -/
def loadOne (mem : Mem) (msg : Message) : Mem :=
  let d := (alookup mem msg.dataset).getD []
  let r := (alookup d msg.row).getD [("id", .str msg.row)]
  aset mem msg.dataset (aset d msg.row (aset r msg.column msg.value))

/-- Function `loadDatasetMem` from `src/index.ts`: fold `loadOne` over all records
of the Latest Index store. -/
def loadDatasetMem (mem : Mem) (latest : List Message) : Mem :=
  latest.foldl loadOne mem

/-- The id invariant on the mirror: every row carries an `id` column equal
to its row key (decidably, over the concrete list structure). -/
def idOk (mem : Mem) : Bool :=
  mem.all (fun d => d.2.all
    (fun r => decide (alookup r.2 "id" = some (.str r.1))))

/-! ## Helper lemmas about the association-list primitives -/

theorem alookup_aset {α : Type} (l : List (String × α)) (k : String) (v : α)
    (q : String) :
    alookup (aset l k v) q = if k = q then some v else alookup l q := by
  induction l with
  | nil => simp [aset, alookup]
  | cons p rest ih =>
    obtain ⟨a, b⟩ := p
    by_cases hak : a = k
    · subst hak
      simp only [aset, if_pos rfl, alookup]
      by_cases haq : a = q <;> simp [haq]
    · simp only [aset, if_neg hak, alookup]
      by_cases haq : a = q
      · subst haq
        have hka : ¬(k = a) := fun h => hak h.symm
        simp [if_neg hka]
      · simp [if_neg haq, ih]

theorem alookup_mem {α : Type} {l : List (String × α)} {k : String} {v : α}
    (h : alookup l k = some v) : (k, v) ∈ l := by
  induction l with
  | nil => simp [alookup] at h
  | cons p rest ih =>
    obtain ⟨a, b⟩ := p
    by_cases hak : a = k
    · subst hak
      rw [show alookup ((a, b) :: rest) a
          = if a = a then some b else alookup rest a from rfl, if_pos rfl] at h
      cases h
      exact List.mem_cons_self _ _
    · rw [show alookup ((a, b) :: rest) k
          = if a = k then some b else alookup rest k from rfl, if_neg hak] at h
      exact List.mem_cons_of_mem _ (ih h)

theorem mem_alookup {α : Type} {l : List (String × α)} {k : String} {v : α}
    (hnd : (l.map Prod.fst).Nodup) (h : (k, v) ∈ l) : alookup l k = some v := by
  induction l with
  | nil => simp at h
  | cons p rest ih =>
    obtain ⟨a, b⟩ := p
    simp only [List.map_cons, List.nodup_cons, List.mem_map] at hnd
    rcases List.mem_cons.mp h with heq | hmem
    · cases heq
      simp [alookup]
    · have hak : a ≠ k := by
        intro hak
        exact hnd.1 ⟨(k, v), hmem, by simp [hak]⟩
      simp only [alookup, if_neg hak]
      exact ih hnd.2 hmem

theorem mem_aset {α : Type} {l : List (String × α)} {k q : String} {v w : α}
    (h : (q, w) ∈ aset l k v) : (q, w) ∈ l ∨ (q = k ∧ w = v) := by
  induction l with
  | nil =>
    simp only [aset, List.mem_singleton, Prod.mk.injEq] at h
    exact Or.inr ⟨h.1, h.2⟩
  | cons p rest ih =>
    obtain ⟨a, b⟩ := p
    by_cases hak : a = k
    · subst hak
      simp only [aset, if_pos rfl] at h
      rcases List.mem_cons.mp h with heq | hmem
      · cases heq
        exact Or.inr ⟨rfl, rfl⟩
      · exact Or.inl (List.mem_cons_of_mem _ hmem)
    · simp only [aset, if_neg hak] at h
      rcases List.mem_cons.mp h with heq | hmem
      · cases heq
        exact Or.inl (List.mem_cons_self _ _)
      · rcases ih hmem with h1 | h2
        · exact Or.inl (List.mem_cons_of_mem _ h1)
        · exact Or.inr h2

theorem aset_map_fst {α : Type} (l : List (String × α)) (k : String) (v : α) :
    (aset l k v).map Prod.fst =
      if (alookup l k).isSome then l.map Prod.fst else l.map Prod.fst ++ [k] := by
  induction l with
  | nil => simp [aset, alookup]
  | cons p rest ih =>
    obtain ⟨a, b⟩ := p
    by_cases hak : a = k
    · subst hak
      simp [aset, alookup]
    · simp [aset, if_neg hak, alookup, if_neg hak, ih]
      by_cases hs : (alookup rest k).isSome <;> simp [hs]

/-- Mapping a column-like projection over a `filterMap` whose kept elements
agree with a projection of the source yields a sublist of the projected
source. -/
theorem map_filterMap_sublist {α β γ : Type} {f : α → Option β} {g : β → γ}
    {h : α → γ} (H : ∀ a b, f a = some b → g b = h a) :
    ∀ l : List α, ((l.filterMap f).map g).Sublist (l.map h)
  | [] => by simp
  | a :: l => by
    cases hfa : f a with
    | none =>
      simp only [List.filterMap_cons, hfa, List.map_cons]
      exact (map_filterMap_sublist H l).cons _
    | some b =>
      simp only [List.filterMap_cons, hfa, List.map_cons, H a b hfa]
      exact (map_filterMap_sublist H l).cons₂ _

/-! ## C2: `storeMessages` duplicate handling, result order, idempotence -/

theorem logGet_none_iff (log : List Message) (ts : String) :
    logGet log ts = none ↔ ∀ m ∈ log, ¬(m.timestamp = ts) := by
  simp [logGet, List.find?_eq_none]

theorem logGet_append_fresh (log : List Message) (msg : Message)
    (h : logGet log msg.timestamp = none) :
    logGet (log ++ [msg]) msg.timestamp = some msg := by
  have heq : logGet (log ++ [msg]) msg.timestamp =
      (log.find? (fun m => m.timestamp == msg.timestamp)).or
        ([msg].find? (fun m => m.timestamp == msg.timestamp)) := by
    simp [logGet, List.find?_append]
  rw [heq]
  have hn : log.find? (fun m => m.timestamp == msg.timestamp) = none := h
  simp [hn, List.find?]

/-- The state produced by `storeMessages`, spelled out. -/
theorem storeMessages_state (db : LocalDB) (messages : List Message) :
    (storeMessages db messages).1 =
      { messageLog := (messages.filter (fun msg =>
            (logGet db.messageLog msg.timestamp).isNone)).foldl logPut
              db.messageLog,
        latestMessage := (messages.filter (fun msg =>
            (logGet db.messageLog msg.timestamp).isNone)).foldl
              (latestStep db.latestMessage) db.latestMessage,
        messageMeta := db.messageMeta } := rfl

/-- The result list produced by `storeMessages`, spelled out. -/
theorem storeMessages_results (db : LocalDB) (messages : List Message) :
    (storeMessages db messages).2 =
      messages.map (fun msg => (logGet db.messageLog msg.timestamp).isNone) :=
  rfl

/-- Counterexample to C2 as stated: two distinct messages sharing one
timestamp in a single batch.  Both log gets are issued before either put
executes and read the pre-batch log, so both messages report `true` (not
`true` then `false`), and the second message's put overwrites the first
message's log entry — the second message is neither skipped nor free of
log mutation. -/
theorem storeMessages_within_batch_duplicate_counterexample :
    (storeMessages LocalDB.empty
      [⟨"t1", "jedi", "yoda", "name", .str "yoda"⟩,
       ⟨"t1", "jedi", "yoda", "name", .str "vader"⟩]).2 = [true, true] ∧
    logGet (storeMessages LocalDB.empty
      [⟨"t1", "jedi", "yoda", "name", .str "yoda"⟩,
       ⟨"t1", "jedi", "yoda", "name", .str "vader"⟩]).1.messageLog "t1" =
      some ⟨"t1", "jedi", "yoda", "name", .str "vader"⟩ ∧
    ((storeMessages LocalDB.empty
      [⟨"t1", "jedi", "yoda", "name", .str "yoda"⟩,
       ⟨"t1", "jedi", "yoda", "name", .str "vader"⟩]).1.messageLog.filter
        (fun m => m.timestamp == "t1")).length = 1 :=
  ⟨rfl, rfl, rfl⟩

/-- Claim C2, amended: duplicate detection reads the Message Log as of the
start of the call.  A message whose timestamp is already in the log when
the call starts is skipped entirely — removing it from the batch leaves the
resulting state unchanged, and its result slot is `false`; a message whose
timestamp is fresh at call start is put into the log with result `true`
(so a within-batch timestamp repeat reports `true` for both copies and the
later put overwrites the earlier, see the counterexample); the booleans
correspond to the input messages in input order; and storing the same
single message in two successive calls returns `true` then `false` and
leaves exactly one log entry for that timestamp. -/
theorem storeMessages_duplicate_skip_and_idempotent :
    (∀ (db : LocalDB) (msgs : List Message),
        (storeMessages db msgs).2.length = msgs.length) ∧
    (∀ (db : LocalDB) (msgs : List Message) (i : Nat) (msg : Message),
        msgs[i]? = some msg →
        (storeMessages db msgs).2[i]? =
          some (logGet db.messageLog msg.timestamp).isNone) ∧
    (∀ (db : LocalDB) (pre post : List Message) (msg r : Message),
        logGet db.messageLog msg.timestamp = some r →
        (storeMessages db (pre ++ msg :: post)).1 =
          (storeMessages db (pre ++ post)).1 ∧
        (storeMessages db (pre ++ msg :: post)).2 =
          (storeMessages db pre).2 ++ false :: (storeMessages db post).2) ∧
    (∀ (db : LocalDB) (msg : Message),
        logGet db.messageLog msg.timestamp = none →
        (storeMessages db [msg]).2 = [true] ∧
        logGet (storeMessages db [msg]).1.messageLog msg.timestamp =
          some msg) ∧
    (∀ (db : LocalDB) (msg : Message),
        (db.messageLog.filter
          (fun m => m.timestamp == msg.timestamp)).length = 0 →
        (storeMessages db [msg]).2 = [true] ∧
        (storeMessages (storeMessages db [msg]).1 [msg]).2 = [false] ∧
        (storeMessages (storeMessages db [msg]).1 [msg]).1 =
          (storeMessages db [msg]).1 ∧
        ((storeMessages db [msg]).1.messageLog.filter
            (fun m => m.timestamp == msg.timestamp)).length = 1) := by
  have hlog1 : ∀ (db : LocalDB) (msg : Message),
      logGet db.messageLog msg.timestamp = none →
      (storeMessages db [msg]).1.messageLog = db.messageLog ++ [msg] := by
    intro db msg hfr
    have hp : (logGet db.messageLog msg.timestamp).isNone = true := by
      rw [hfr]
      rfl
    have hany : db.messageLog.any
        (fun m => m.timestamp == msg.timestamp) = false := by
      rw [List.any_eq_false]
      intro m hm
      simpa using (logGet_none_iff db.messageLog msg.timestamp).mp hfr m hm
    rw [storeMessages_state]
    simp [hp, logPut, hany]
  have hres1 : ∀ (db : LocalDB) (msg : Message),
      logGet db.messageLog msg.timestamp = none →
      (storeMessages db [msg]).2 = [true] := by
    intro db msg hfr
    have hp : (logGet db.messageLog msg.timestamp).isNone = true := by
      rw [hfr]
      rfl
    rw [storeMessages_results]
    simp [hp]
  have hfresh : ∀ (db : LocalDB) (msg : Message),
      logGet db.messageLog msg.timestamp = none →
      (storeMessages db [msg]).2 = [true] ∧
      logGet (storeMessages db [msg]).1.messageLog msg.timestamp =
        some msg := by
    intro db msg hfr
    refine ⟨hres1 db msg hfr, ?_⟩
    rw [hlog1 db msg hfr]
    exact logGet_append_fresh db.messageLog msg hfr
  refine ⟨?_, ?_, ?_, hfresh, ?_⟩
  · intro db msgs
    rw [storeMessages_results, List.length_map]
  · intro db msgs i msg hmsg
    rw [storeMessages_results, List.getElem?_map, hmsg]
    rfl
  · intro db pre post msg r hdup
    have hp : (logGet db.messageLog msg.timestamp).isNone = false := by
      rw [hdup]
      rfl
    have hfilter : (pre ++ msg :: post).filter
        (fun m => (logGet db.messageLog m.timestamp).isNone) =
        (pre ++ post).filter
          (fun m => (logGet db.messageLog m.timestamp).isNone) := by
      simp [List.filter_append, List.filter_cons, hp]
    constructor
    · rw [storeMessages_state, storeMessages_state, hfilter]
    · rw [storeMessages_results, storeMessages_results, storeMessages_results]
      simp [hp]
  · intro db msg hcount
    have hnil : db.messageLog.filter
        (fun m => m.timestamp == msg.timestamp) = [] :=
      List.length_eq_zero.mp hcount
    have hnone : logGet db.messageLog msg.timestamp = none := by
      rw [logGet_none_iff]
      intro m hm heq
      have : m ∈ db.messageLog.filter
          (fun m => m.timestamp == msg.timestamp) := by
        simp [List.mem_filter, hm, heq]
      rw [hnil] at this
      simp at this
    have hsome : logGet (storeMessages db [msg]).1.messageLog msg.timestamp =
        some msg := (hfresh db msg hnone).2
    have hp2 : (logGet (storeMessages db [msg]).1.messageLog
        msg.timestamp).isNone = false := by
      rw [hsome]
      rfl
    refine ⟨hres1 db msg hnone, ?_, ?_, ?_⟩
    · rw [storeMessages_results]
      simp [hp2]
    · rw [storeMessages_state]
      simp [hp2]
    · rw [hlog1 db msg hnone, List.filter_append, hnil]
      simp

/-- Witness for C2 at a concrete input: a fresh one-message batch into the
empty database. -/
theorem storeMessages_duplicate_skip_and_idempotent_witness :
    ((LocalDB.empty.messageLog.filter
        (fun m => m.timestamp == "t1")).length = 0) ∧
      ((storeMessages LocalDB.empty
          [⟨"t1", "jedi", "yoda", "name", .str "yoda"⟩]).2 = [true] ∧
        (storeMessages (storeMessages LocalDB.empty
            [⟨"t1", "jedi", "yoda", "name", .str "yoda"⟩]).1
          [⟨"t1", "jedi", "yoda", "name", .str "yoda"⟩]).2 = [false] ∧
        (storeMessages (storeMessages LocalDB.empty
            [⟨"t1", "jedi", "yoda", "name", .str "yoda"⟩]).1
          [⟨"t1", "jedi", "yoda", "name", .str "yoda"⟩]).1 =
          (storeMessages LocalDB.empty
            [⟨"t1", "jedi", "yoda", "name", .str "yoda"⟩]).1 ∧
        ((storeMessages LocalDB.empty
            [⟨"t1", "jedi", "yoda", "name", .str "yoda"⟩]).1.messageLog.filter
              (fun m => m.timestamp == "t1")).length = 1) :=
  ⟨by decide,
    storeMessages_duplicate_skip_and_idempotent.2.2.2.2 LocalDB.empty
      ⟨"t1", "jedi", "yoda", "name", .str "yoda"⟩ (by decide)⟩

/-! ## C1: Latest Index monotonicity and first-write-wins ties -/

/-- The database state after a sequence of `storeMessages` calls. -/
def storeRun : LocalDB → List (List Message) → LocalDB
  | db, [] => db
  | db, batch :: rest => storeRun (storeMessages db batch).1 rest

/-- The non-duplicate ("fresh") messages of one batch: those whose
timestamp is absent from the log at the start of the call, i.e. exactly
those whose `storeMessages` result is `true`. -/
def batchFresh (db : LocalDB) (messages : List Message) : List Message :=
  messages.filter (fun msg => (logGet db.messageLog msg.timestamp).isNone)

/-- All non-duplicate messages ingested over a sequence of calls. -/
def runFresh : LocalDB → List (List Message) → List Message
  | _, [] => []
  | db, batch :: rest =>
    batchFresh db batch ++ runFresh (storeMessages db batch).1 rest

/-- The Latest Index invariant: every present entry's timestamp bounds every
ingested fresh message for its key, and an absent entry means no fresh
message was ever ingested for that key. -/
def LatestUB (db : LocalDB) (ingested : List Message) : Prop :=
  (∀ k m, alookup db.latestMessage k = some m →
      ∀ msg ∈ ingested, latestMessageKey msg = k → msg.timestamp ≤ m.timestamp) ∧
  (∀ k, alookup db.latestMessage k = none →
      ∀ msg ∈ ingested, latestMessageKey msg ≠ k)

/-- Counterexample to C1 as stated: one batch holding two same-cell
messages with descending timestamps.  Both latest-index gets read the
pre-batch (empty) index, so both messages pass the absent-entry check, and
the later-issued put wins: the Latest Index ends at timestamp `t1`
although the non-duplicate message with timestamp `t2 > t1` was ingested
in the very same call — and the `t1` put overwrote the `t2` entry without
a strictly greater timestamp. -/
theorem latestIndex_descending_batch_counterexample :
    (storeMessages LocalDB.empty
      [⟨"t2", "jedi", "yoda", "name", .str "vader"⟩,
       ⟨"t1", "jedi", "yoda", "name", .str "yoda"⟩]).2 = [true, true] ∧
    alookup (storeMessages LocalDB.empty
      [⟨"t2", "jedi", "yoda", "name", .str "vader"⟩,
       ⟨"t1", "jedi", "yoda", "name", .str "yoda"⟩]).1.latestMessage
      "jedi:yoda:name" = some ⟨"t1", "jedi", "yoda", "name", .str "yoda"⟩ ∧
    ("t1" : String) < "t2" :=
  ⟨rfl, rfl, String.lt_iff_toList_lt.mpr
    (by decide : ("t1" : String).toList < ("t2" : String).toList)⟩

theorem latestFold_UB (latest0 : List (String × Message)) :
    ∀ (fresh : List Message) (acc : List (String × Message))
      (ingested : List Message),
      (fresh.map latestMessageKey).Nodup →
      (∀ k m, alookup acc k = some m →
        ∀ msg ∈ ingested, latestMessageKey msg = k →
          msg.timestamp ≤ m.timestamp) →
      (∀ k, alookup acc k = none →
        ∀ msg ∈ ingested, latestMessageKey msg ≠ k) →
      (∀ msg ∈ fresh, alookup acc (latestMessageKey msg) =
        alookup latest0 (latestMessageKey msg)) →
      (∀ k m, alookup (fresh.foldl (latestStep latest0) acc) k = some m →
        ∀ msg ∈ ingested ++ fresh, latestMessageKey msg = k →
          msg.timestamp ≤ m.timestamp) ∧
      (∀ k, alookup (fresh.foldl (latestStep latest0) acc) k = none →
        ∀ msg ∈ ingested ++ fresh, latestMessageKey msg ≠ k)
  | [], acc, ingested, _, hub, habs, _ => by
    simp only [List.foldl_nil, List.append_nil]
    exact ⟨hub, habs⟩
  | msg :: rest, acc, ingested, hnd, hub, habs, hagree => by
    have hk0 := hagree msg (List.mem_cons_self _ _)
    simp only [List.map_cons, List.nodup_cons] at hnd
    obtain ⟨hknotin, hndrest⟩ := hnd
    have hne : ∀ msg2 ∈ rest,
        latestMessageKey msg ≠ latestMessageKey msg2 := by
      intro msg2 hmem2 hcontra
      apply hknotin
      rw [hcontra]
      exact List.mem_map.mpr ⟨msg2, hmem2, rfl⟩
    -- establish the three premises for the tail, by cases on the pre-batch
    -- entry at this message's key
    have hstepfacts :
        (∀ k m, alookup (latestStep latest0 acc msg) k = some m →
          ∀ msg2 ∈ ingested ++ [msg], latestMessageKey msg2 = k →
            msg2.timestamp ≤ m.timestamp) ∧
        (∀ k, alookup (latestStep latest0 acc msg) k = none →
          ∀ msg2 ∈ ingested ++ [msg], latestMessageKey msg2 ≠ k) ∧
        (∀ msg2 ∈ rest, alookup (latestStep latest0 acc msg)
          (latestMessageKey msg2) = alookup latest0 (latestMessageKey msg2)) := by
      cases h0 : alookup latest0 (latestMessageKey msg) with
      | none =>
        have hstep : latestStep latest0 acc msg
            = aset acc (latestMessageKey msg) msg := by
          unfold latestStep
          rw [h0]
        have hacck : alookup acc (latestMessageKey msg) = none := by
          rw [hk0, h0]
        refine ⟨?_, ?_, ?_⟩
        · intro k m hm msg2 hmem2 hkey2
          rw [hstep, alookup_aset] at hm
          rcases List.mem_append.mp hmem2 with hold | hnew
          · by_cases hkk : latestMessageKey msg = k
            · exact absurd hkey2 (habs k (hkk ▸ hacck) msg2 hold)
            · rw [if_neg hkk] at hm
              exact hub k m hm msg2 hold hkey2
          · rcases List.mem_singleton.mp hnew with rfl
            rw [if_pos hkey2] at hm
            cases hm
            exact le_refl _
        · intro k hk msg2 hmem2 hkey2
          rw [hstep, alookup_aset] at hk
          by_cases hkk : latestMessageKey msg = k
          · rw [if_pos hkk] at hk
            cases hk
          · rw [if_neg hkk] at hk
            rcases List.mem_append.mp hmem2 with hold | hnew
            · exact habs k hk msg2 hold hkey2
            · rcases List.mem_singleton.mp hnew with rfl
              exact hkk hkey2
        · intro msg2 hmem2
          rw [hstep, alookup_aset, if_neg (hne msg2 hmem2)]
          exact hagree msg2 (List.mem_cons_of_mem _ hmem2)
      | some ex0 =>
        have hacck : alookup acc (latestMessageKey msg) = some ex0 := by
          rw [hk0, h0]
        by_cases hlt0 : ex0.timestamp < msg.timestamp
        · have hstep : latestStep latest0 acc msg
              = aset acc (latestMessageKey msg) msg := by
            unfold latestStep
            rw [h0]
            dsimp only
            rw [if_pos hlt0]
          refine ⟨?_, ?_, ?_⟩
          · intro k m hm msg2 hmem2 hkey2
            rw [hstep, alookup_aset] at hm
            rcases List.mem_append.mp hmem2 with hold | hnew
            · by_cases hkk : latestMessageKey msg = k
              · rw [if_pos hkk] at hm
                cases hm
                exact le_trans (hub k ex0 (hkk ▸ hacck) msg2 hold hkey2)
                  (le_of_lt hlt0)
              · rw [if_neg hkk] at hm
                exact hub k m hm msg2 hold hkey2
            · rcases List.mem_singleton.mp hnew with rfl
              rw [if_pos hkey2] at hm
              cases hm
              exact le_refl _
          · intro k hk msg2 hmem2 hkey2
            rw [hstep, alookup_aset] at hk
            by_cases hkk : latestMessageKey msg = k
            · rw [if_pos hkk] at hk
              cases hk
            · rw [if_neg hkk] at hk
              rcases List.mem_append.mp hmem2 with hold | hnew
              · exact habs k hk msg2 hold hkey2
              · rcases List.mem_singleton.mp hnew with rfl
                exact hkk hkey2
          · intro msg2 hmem2
            rw [hstep, alookup_aset, if_neg (hne msg2 hmem2)]
            exact hagree msg2 (List.mem_cons_of_mem _ hmem2)
        · have hstep : latestStep latest0 acc msg = acc := by
            unfold latestStep
            rw [h0]
            dsimp only
            rw [if_neg hlt0]
          refine ⟨?_, ?_, ?_⟩
          · intro k m hm msg2 hmem2 hkey2
            rw [hstep] at hm
            rcases List.mem_append.mp hmem2 with hold | hnew
            · exact hub k m hm msg2 hold hkey2
            · rcases List.mem_singleton.mp hnew with rfl
              rw [hkey2] at hacck
              rw [hacck] at hm
              cases hm
              exact le_of_not_lt hlt0
          · intro k hk msg2 hmem2 hkey2
            rw [hstep] at hk
            rcases List.mem_append.mp hmem2 with hold | hnew
            · exact habs k hk msg2 hold hkey2
            · rcases List.mem_singleton.mp hnew with rfl
              rw [hkey2] at hacck
              rw [hacck] at hk
              cases hk
          · intro msg2 hmem2
            rw [hstep]
            exact hagree msg2 (List.mem_cons_of_mem _ hmem2)
    obtain ⟨hub2, habs2, hagree2⟩ := hstepfacts
    have hrec := latestFold_UB latest0 rest (latestStep latest0 acc msg)
      (ingested ++ [msg]) hndrest hub2 habs2 hagree2
    rw [List.foldl_cons]
    constructor
    · intro k m hm msg2 hmem2 hkey2
      refine hrec.1 k m hm msg2 ?_ hkey2
      simpa [List.append_assoc] using hmem2
    · intro k hk msg2 hmem2
      refine hrec.2 k hk msg2 ?_
      simpa [List.append_assoc] using hmem2

theorem storeMessages_latestUB {db : LocalDB} {ingested : List Message}
    (batch : List Message)
    (hnd : (batch.map latestMessageKey).Nodup)
    (h : LatestUB db ingested) :
    LatestUB (storeMessages db batch).1 (ingested ++ batchFresh db batch) := by
  obtain ⟨hub, habs⟩ := h
  have hndf : ((batchFresh db batch).map latestMessageKey).Nodup :=
    ((List.filter_sublist batch).map latestMessageKey).nodup hnd
  exact latestFold_UB db.latestMessage (batchFresh db batch)
    db.latestMessage ingested hndf hub habs (fun _ _ => rfl)

theorem storeRun_latestUB :
    ∀ (batches : List (List Message)) (db : LocalDB) (ingested : List Message),
      (∀ b ∈ batches, (b.map latestMessageKey).Nodup) →
      LatestUB db ingested →
      LatestUB (storeRun db batches) (ingested ++ runFresh db batches)
  | [], db, ingested, _, h => by
    rw [show storeRun db [] = db from rfl,
      show ingested ++ runFresh db [] = ingested by simp [runFresh]]
    exact h
  | batch :: rest, db, ingested, hnd, h => by
    rw [show storeRun db (batch :: rest)
        = storeRun (storeMessages db batch).1 rest from rfl]
    have h1 := storeMessages_latestUB batch (hnd batch (List.mem_cons_self _ _)) h
    have h2 := storeRun_latestUB rest (storeMessages db batch).1
      (ingested ++ batchFresh db batch)
      (fun b hb => hnd b (List.mem_cons_of_mem _ hb)) h1
    have hl : ingested ++ runFresh db (batch :: rest) =
        (ingested ++ batchFresh db batch) ++
          runFresh (storeMessages db batch).1 rest := by
      simp [runFresh, List.append_assoc]
    rw [hl]
    exact h2

theorem latestFold_lookup_cases (latest0 : List (String × Message))
    (k : String) :
    ∀ (msgs : List Message) (acc : List (String × Message)) (m2 : Message),
      alookup (msgs.foldl (latestStep latest0) acc) k = some m2 →
      alookup acc k = some m2 ∨
        (m2 ∈ msgs ∧ latestMessageKey m2 = k ∧
          ∀ ex, alookup latest0 k = some ex → ex.timestamp < m2.timestamp)
  | [], _, _, h => Or.inl h
  | msg :: rest, acc, m2, h => by
    rw [List.foldl_cons] at h
    rcases latestFold_lookup_cases latest0 k rest (latestStep latest0 acc msg)
      m2 h with hacc | ⟨hmem, hkey, hlt⟩
    · cases h0 : alookup latest0 (latestMessageKey msg) with
      | none =>
        have hstep : latestStep latest0 acc msg
            = aset acc (latestMessageKey msg) msg := by
          unfold latestStep
          rw [h0]
        rw [hstep, alookup_aset] at hacc
        by_cases hkk : latestMessageKey msg = k
        · rw [if_pos hkk] at hacc
          cases hacc
          refine Or.inr ⟨List.mem_cons_self _ _, hkk, fun ex hex => ?_⟩
          rw [hkk] at h0
          rw [h0] at hex
          cases hex
        · rw [if_neg hkk] at hacc
          exact Or.inl hacc
      | some ex0 =>
        by_cases hlt0 : ex0.timestamp < msg.timestamp
        · have hstep : latestStep latest0 acc msg
              = aset acc (latestMessageKey msg) msg := by
            unfold latestStep
            rw [h0]
            dsimp only
            rw [if_pos hlt0]
          rw [hstep, alookup_aset] at hacc
          by_cases hkk : latestMessageKey msg = k
          · rw [if_pos hkk] at hacc
            cases hacc
            refine Or.inr ⟨List.mem_cons_self _ _, hkk, fun ex hex => ?_⟩
            rw [hkk] at h0
            rw [h0] at hex
            cases hex
            exact hlt0
          · rw [if_neg hkk] at hacc
            exact Or.inl hacc
        · have hstep : latestStep latest0 acc msg = acc := by
            unfold latestStep
            rw [h0]
            dsimp only
            rw [if_neg hlt0]
          rw [hstep] at hacc
          exact Or.inl hacc
    · exact Or.inr ⟨List.mem_cons_of_mem _ hmem, hkey, hlt⟩

/-- Claim C1, amended: over any sequence of `storeMessages` calls from a
fresh database in which no single batch carries two messages for the same
Latest Index key, a present entry's timestamp bounds the timestamp of every
non-duplicate message ever ingested for its key.  Relative to the state at
the start of a call the monotonicity needs no proviso: across any single
call an existing entry is either kept unchanged (in particular on equal
incoming timestamps — first write wins) or replaced by a batch message with
a strictly greater timestamp.  Within one batch, however, two same-cell
messages each compare against the pre-batch entry, so the later-issued one
wins regardless of timestamp order (see the counterexample). -/
theorem latestIndex_monotone_first_write_wins :
    (∀ (batches : List (List Message)) (k : String) (m : Message),
        (∀ b ∈ batches, (b.map latestMessageKey).Nodup) →
        alookup (storeRun LocalDB.empty batches).latestMessage k = some m →
        ∀ msg ∈ runFresh LocalDB.empty batches,
          latestMessageKey msg = k → msg.timestamp ≤ m.timestamp) ∧
    (∀ (db : LocalDB) (batch : List Message) (k : String) (m m2 : Message),
        alookup db.latestMessage k = some m →
        alookup (storeMessages db batch).1.latestMessage k = some m2 →
        m2 = m ∨ (m.timestamp < m2.timestamp ∧ m2 ∈ batch)) := by
  constructor
  · intro batches k m hnd hm msg hmem hkey
    have h0 : LatestUB LocalDB.empty [] := by
      constructor
      · intro k2 m2 hm2
        simp [LocalDB.empty, alookup] at hm2
      · intro k2 _ msg2 hmem2
        simp at hmem2
    have := (storeRun_latestUB batches LocalDB.empty [] hnd h0).1 k m hm msg
    exact this (by simpa using hmem) hkey
  · intro db batch k m m2 hm hm2
    have hfold : alookup ((batchFresh db batch).foldl
        (latestStep db.latestMessage) db.latestMessage) k = some m2 := hm2
    rcases latestFold_lookup_cases db.latestMessage k (batchFresh db batch)
      db.latestMessage m2 hfold with hacc | ⟨hmem, _, hlt⟩
    · rw [hm] at hacc
      cases hacc
      exact Or.inl rfl
    · exact Or.inr ⟨hlt m hm, (List.mem_filter.mp hmem).1⟩

/-- Witness for the amended C1 at a concrete input: one call storing one
message (trivially one message per key), whose cell entry then bounds the
single ingested fresh message. -/
theorem latestIndex_monotone_first_write_wins_witness :
    ((∀ b ∈ [[(⟨"t1", "jedi", "yoda", "name", .str "yoda"⟩ : Message)]],
        (b.map latestMessageKey).Nodup) ∧
      alookup (storeRun LocalDB.empty
        [[⟨"t1", "jedi", "yoda", "name", .str "yoda"⟩]]).latestMessage
        "jedi:yoda:name" = some ⟨"t1", "jedi", "yoda", "name", .str "yoda"⟩) ∧
    (∀ msg ∈ runFresh LocalDB.empty
        [[⟨"t1", "jedi", "yoda", "name", .str "yoda"⟩]],
      latestMessageKey msg = "jedi:yoda:name" → msg.timestamp ≤ "t1") :=
  ⟨⟨by decide, by decide⟩,
    fun msg hmem hkey =>
      latestIndex_monotone_first_write_wins.1
        [[⟨"t1", "jedi", "yoda", "name", .str "yoda"⟩]] "jedi:yoda:name"
        ⟨"t1", "jedi", "yoda", "name", .str "yoda"⟩ (by decide) (by decide)
        msg hmem hkey⟩

/-! ## C5: `queryMessages` — inclusive lower bound, descending order -/

/-- Claim C5: `queryMessages since` returns exactly the log entries with
timestamp `≥ since` (inclusive), in strictly descending timestamp order
(given the log store's key invariant that timestamps are unique). -/
theorem queryMessages_inclusive_descending :
    ∀ (db : LocalDB) (since : String),
      (db.messageLog.map (fun m => m.timestamp)).Nodup →
      (∀ m, m ∈ queryMessages db since ↔ m ∈ db.messageLog ∧ since ≤ m.timestamp) ∧
      (queryMessages db since).Pairwise
        (fun a b => b.timestamp < a.timestamp) := by
  intro db since hnd
  constructor
  · intro m
    rw [queryMessages, List.mem_insertionSort, List.mem_filter]
    simp
  · have hsorted : (queryMessages db since).Pairwise tsDesc :=
      List.sorted_insertionSort tsDesc _
    have hperm : List.Perm (queryMessages db since)
        (db.messageLog.filter (fun m => since ≤ m.timestamp)) :=
      List.perm_insertionSort _ _
    have hsub : (db.messageLog.filter (fun m => since ≤ m.timestamp)).Sublist
        db.messageLog := List.filter_sublist _
    have hndf : ((db.messageLog.filter
        (fun m => since ≤ m.timestamp)).map (fun m => m.timestamp)).Nodup :=
      (hsub.map _).nodup hnd
    have hndq : ((queryMessages db since).map (fun m => m.timestamp)).Nodup :=
      ((hperm.map _).nodup_iff).mpr hndf
    have hne : (queryMessages db since).Pairwise
        (fun a b => a.timestamp ≠ b.timestamp) :=
      List.pairwise_map.mp hndq
    exact (hsorted.and hne).imp
      (fun h => lt_of_le_of_ne h.1 (Ne.symm h.2))

/-- Witness for C5 at a concrete input: a two-entry log queried since the
earlier timestamp. -/
theorem queryMessages_inclusive_descending_witness :
    ((LocalDB.mk
        [⟨"a1", "jedi", "yoda", "name", .str "yoda"⟩,
         ⟨"b2", "jedi", "yoda", "age", .num 942⟩] [] []).messageLog.map
          (fun m => m.timestamp)).Nodup ∧
    ((∀ m, m ∈ queryMessages (LocalDB.mk
        [⟨"a1", "jedi", "yoda", "name", .str "yoda"⟩,
         ⟨"b2", "jedi", "yoda", "age", .num 942⟩] [] []) "a1" ↔
        m ∈ (LocalDB.mk
          [⟨"a1", "jedi", "yoda", "name", .str "yoda"⟩,
           ⟨"b2", "jedi", "yoda", "age", .num 942⟩] [] []).messageLog ∧
          "a1" ≤ m.timestamp) ∧
      (queryMessages (LocalDB.mk
          [⟨"a1", "jedi", "yoda", "name", .str "yoda"⟩,
           ⟨"b2", "jedi", "yoda", "age", .num 942⟩] [] []) "a1").Pairwise
        (fun a b => b.timestamp < a.timestamp)) :=
  ⟨by decide,
    queryMessages_inclusive_descending
      (LocalDB.mk
        [⟨"a1", "jedi", "yoda", "name", .str "yoda"⟩,
         ⟨"b2", "jedi", "yoda", "age", .num 942⟩] [] []) "a1" (by decide)⟩

/-! ## C6: `applyChanges` — last-in-batch wins, listener fan-out -/

/-- Lookup of one cell in a `Changes` structure. -/
def changesLookup (ch : Changes) (d r c : String) : Option Val :=
  (alookup ch d).bind (fun ds => (alookup ds r).bind (fun row => alookup row c))

theorem applyStep_lookup (acc : Changes) (msg : Message) (d r c : String) :
    changesLookup (applyStep acc msg) d r c =
      if msg.dataset = d ∧ msg.row = r ∧ msg.column = c then some msg.value
      else changesLookup acc d r c := by
  unfold applyStep changesLookup
  rw [alookup_aset]
  by_cases hd : msg.dataset = d
  · subst hd
    rw [if_pos rfl, Option.some_bind, alookup_aset]
    by_cases hr : msg.row = r
    · subst hr
      rw [if_pos rfl, Option.some_bind, alookup_aset]
      by_cases hc : msg.column = c
      · subst hc
        rw [if_pos rfl, if_pos ⟨rfl, rfl, rfl⟩]
      · rw [if_neg hc, if_neg (fun h => hc h.2.2)]
        cases hacc : alookup acc msg.dataset with
        | none => simp [hacc, alookup]
        | some oldds =>
          simp only [hacc, Option.getD_some, Option.some_bind]
          cases hds : alookup oldds msg.row with
          | none => simp [hds, alookup]
          | some oldrow => simp [hds]
    · rw [if_neg hr, if_neg (fun h => hr h.2.1)]
      cases hacc : alookup acc msg.dataset with
      | none => simp [hacc, alookup]
      | some oldds => simp [hacc]
  · rw [if_neg hd, if_neg (fun h => hd h.1)]

theorem consolidate_foldl_lookup :
    ∀ (msgs : List Message) (acc : Changes) (d r c : String),
      changesLookup (msgs.foldl applyStep acc) d r c =
        match msgs.reverse.find?
            (fun m => m.dataset == d && m.row == r && m.column == c) with
        | some m => some m.value
        | none => changesLookup acc d r c
  | [], acc, d, r, c => by simp
  | msg :: msgs, acc, d, r, c => by
    rw [List.foldl_cons, consolidate_foldl_lookup msgs (applyStep acc msg) d r c]
    rw [List.reverse_cons, List.find?_append]
    cases hfind : msgs.reverse.find?
        (fun m => m.dataset == d && m.row == r && m.column == c) with
    | some m1 => simp
    | none =>
      simp only [Option.none_orElse]
      rw [applyStep_lookup]
      by_cases hcell : msg.dataset = d ∧ msg.row = r ∧ msg.column = c
      · obtain ⟨h1, h2, h3⟩ := hcell
        rw [if_pos ⟨h1, h2, h3⟩]
        simp [List.find?, h1, h2, h3]
      · rw [if_neg hcell]
        have hb : (msg.dataset == d && msg.row == r && msg.column == c) = false := by
          rcases Decidable.not_and_iff_or_not.mp hcell with h | hrc
          · simp [h]
          · rcases Decidable.not_and_iff_or_not.mp hrc with h | h <;> simp [h]
        simp [List.find?, hb]

theorem foldl_append_singleton_eq_map {α β : Type} (f : α → β) :
    ∀ (l : List α) (acc : List β),
      l.foldl (fun done c => done ++ [f c]) acc = acc ++ l.map f
  | [], acc => by simp
  | a :: l, acc => by
    rw [List.foldl_cons, foldl_append_singleton_eq_map f l (acc ++ [f a])]
    simp

/-- Claim C6: `applyChanges` delivers the one consolidated structure exactly
once to every registered listener, in registration order; and in the
consolidated structure the value of the last message of the batch for each
cell wins. -/
theorem applyChanges_last_wins_fanout :
    ∀ {α : Type} (changeListeners : List α) (messages : List Message),
      applyChanges changeListeners messages =
        changeListeners.map (fun c => (c, consolidate messages)) ∧
      ∀ d r c, changesLookup (consolidate messages) d r c =
        (messages.reverse.find?
          (fun m => m.dataset == d && m.row == r && m.column == c)).map
            (fun m => m.value) := by
  intro α changeListeners messages
  constructor
  · rw [applyChanges]
    exact foldl_append_singleton_eq_map _ changeListeners []
  · intro d r c
    rw [consolidate, consolidate_foldl_lookup]
    cases hfind : messages.reverse.find?
        (fun m => m.dataset == d && m.row == r && m.column == c) with
    | some m => simp
    | none => simp [changesLookup, alookup]

/-! ## C7: forbidden structural operations throw and mutate nothing -/

/-- Claim C7: assigning to or deleting from the virtual root, and
`defineProperty` at root, dataset or row level, all raise a `TypeError`
naming the offending level, and none of them produces a new mirror state or
an outgoing message (the operations return only the error). -/
theorem forbidden_ops_throw_without_mutation :
    ∀ (mem : Mem) (dataset id : String) (value : Val),
      dbSet mem dataset value = .error "cannot set on DB" ∧
      dbDelete mem dataset = .error "cannot delete on DB" ∧
      dbDefineProperty mem dataset = .error "cannot defineProperty on DB" ∧
      datasetDefineProperty mem dataset id =
        .error ("cannot defineProperty on dataset \"" ++ dataset ++ "\"") ∧
      rowDefineProperty mem dataset id =
        .error ("cannot defineProperty on dataset \"" ++ dataset
          ++ "\" with row id " ++ id) :=
  fun _ _ _ _ => ⟨rfl, rfl, rfl, rfl, rfl⟩

/-! ## C3: `DatasetProxy.set` — column diff batch and read-your-write -/

theorem alookup_isSome_iff_mem_keys {α : Type} (l : List (String × α))
    (k : String) : (alookup l k).isSome ↔ k ∈ l.map Prod.fst := by
  induction l with
  | nil => simp [alookup]
  | cons p rest ih =>
    obtain ⟨a, b⟩ := p
    by_cases hak : a = k
    · subst hak
      simp [alookup]
    · simp [alookup, if_neg hak, ih, Ne.symm hak]

theorem alookup_eq_none_iff {α : Type} (l : List (String × α)) (k : String) :
    alookup l k = none ↔ k ∉ l.map Prod.fst := by
  rw [← alookup_isSome_iff_mem_keys]
  cases alookup l k <;> simp

theorem augmentId_keys_nodup {fields : Row} {id : String}
    (hnd : (fields.map Prod.fst).Nodup) :
    ((augmentId fields id).map Prod.fst).Nodup := by
  unfold augmentId
  cases hid : alookup fields "id" with
  | some v => exact hnd
  | none =>
    rw [aset_map_fst, hid]
    simp only [Option.isSome_none, Bool.false_eq_true, if_false]
    have : "id" ∉ fields.map Prod.fst := (alookup_eq_none_iff _ _).mp hid
    simp [List.nodup_append, hnd, this]

theorem augmentId_lookup_id {fields : Row} {id : String}
    (hid : alookup fields "id" = none ∨ alookup fields "id" = some (.str id)) :
    alookup (augmentId fields id) "id" = some (.str id) := by
  unfold augmentId
  rcases hid with h | h
  · rw [h, alookup_aset, if_pos rfl]
  · rw [h, h]

theorem augmentId_lookup_other {fields : Row} {id k : String}
    (hk : k ≠ "id") : alookup (augmentId fields id) k = alookup fields k := by
  unfold augmentId
  cases alookup fields "id" with
  | some v => rfl
  | none => rw [alookup_aset, if_neg (fun h => hk h.symm)]

/-- Claim C3: writing `dataset[id] = value` for a structured object whose
`id` (if present) matches succeeds and emits, before the mirror is touched
(the batch is diffed against the pre-write mirror), exactly one message per
column of the id-augmented clone whose value is not deep-equal to the
existing row's column, plus one `undefined`-valued message per column of the
existing row absent from the new value; afterwards the mirror row equals the
id-augmented clone.  The two concrete spec scenarios are included: writing
`(name yoda, age 942)` to an empty row emits the full column batch with the
appended `id`, and overwriting with `(name yoda)` emits only
`age = undefined` and leaves the row without an `age` key. -/
theorem datasetSet_diff_batch :
    (∀ (mem : Mem) (dataset id : String) (fields : Row),
      (alookup fields "id" = none ∨ alookup fields "id" = some (.str id)) →
      (fields.map Prod.fst).Nodup →
      ((existingRow mem dataset id).map Prod.fst).Nodup →
      datasetSet mem dataset id (.obj fields) =
        .ok (datasetSet.datasetSetBody mem dataset id (augmentId fields id)) ∧
      alookup ((alookup (datasetSet.datasetSetBody mem dataset id
          (augmentId fields id)).2 dataset).getD []) id =
        some (augmentId fields id) ∧
      (∀ m, m ∈ (datasetSet.datasetSetBody mem dataset id
          (augmentId fields id)).1 ↔
        (m.dataset = dataset ∧ m.row = id ∧
          ((∃ v, alookup (augmentId fields id) m.column = some v ∧
              m.value = v ∧
              dequal (jsGet (existingRow mem dataset id) m.column) v = false) ∨
            (alookup (augmentId fields id) m.column = none ∧
              (alookup (existingRow mem dataset id) m.column).isSome ∧
              m.value = .undefined)))) ∧
      ((datasetSet.datasetSetBody mem dataset id
          (augmentId fields id)).1.map (fun m => m.column)).Nodup) ∧
    (datasetSet [] "jedi" "yoda"
        (.obj [("name", .str "yoda"), ("age", .num 942)]) =
      .ok ([⟨"jedi", "yoda", "name", .str "yoda"⟩,
            ⟨"jedi", "yoda", "age", .num 942⟩,
            ⟨"jedi", "yoda", "id", .str "yoda"⟩],
        [("jedi", [("yoda",
          [("name", .str "yoda"), ("age", .num 942), ("id", .str "yoda")])])])) ∧
    (datasetSet
        [("jedi", [("yoda",
          [("name", .str "yoda"), ("age", .num 942), ("id", .str "yoda")])])]
        "jedi" "yoda" (.obj [("name", .str "yoda")]) =
      .ok ([⟨"jedi", "yoda", "age", .undefined⟩],
        [("jedi", [("yoda", [("name", .str "yoda"), ("id", .str "yoda")])])]) ∧
      alookup [("name", Val.str "yoda"), ("id", Val.str "yoda")] "age" = none) := by
  refine ⟨?_, by rfl, by rfl, by rfl⟩
  intro mem dataset id fields hid hfnd hend
  have hfnd2 : ((augmentId fields id).map Prod.fst).Nodup :=
    augmentId_keys_nodup hfnd
  constructor
  · simp only [datasetSet]
    rcases hid with h | h
    · have ha : augmentId fields id = aset fields "id" (.str id) := by
        unfold augmentId
        rw [h]
      rw [ha, h]
    · have ha : augmentId fields id = fields := by
        unfold augmentId
        rw [h]
      rw [ha, h]
      dsimp only
      rw [if_pos rfl]
  set fields2 := augmentId fields id with hf2
  set existing := existingRow mem dataset id with hex
  have hbody : datasetSet.datasetSetBody mem dataset id fields2 =
      (fields2.filterMap (fun kv =>
          if dequal (jsGet existing kv.1) kv.2 then none
          else some ⟨dataset, id, kv.1, kv.2⟩) ++
        existing.filterMap (fun kv =>
          if (alookup fields2 kv.1).isSome then none
          else some ⟨dataset, id, kv.1, .undefined⟩),
        aset mem dataset
          (aset ((alookup mem dataset).getD []) id fields2)) := rfl
  refine ⟨?_, ?_, ?_⟩
  · rw [hbody]
    simp only
    rw [alookup_aset, if_pos rfl, Option.getD_some, alookup_aset, if_pos rfl]
  · intro m
    rw [hbody]
    simp only [List.mem_append, List.mem_filterMap]
    constructor
    · rintro (⟨kv, hkv, hf⟩ | ⟨kv, hkv, hf⟩)
      · by_cases hdq : dequal (jsGet existing kv.1) kv.2 = true
        · rw [if_pos hdq] at hf
          cases hf
        · rw [if_neg hdq] at hf
          cases hf
          exact ⟨rfl, rfl, Or.inl ⟨kv.2, mem_alookup hfnd2 hkv, rfl,
            Bool.eq_false_iff.mpr hdq⟩⟩
      · by_cases hs : (alookup fields2 kv.1).isSome
        · rw [if_pos hs] at hf
          cases hf
        · rw [if_neg hs] at hf
          cases hf
          refine ⟨rfl, rfl, Or.inr ⟨?_, ?_, rfl⟩⟩
          · cases halt : alookup fields2 kv.1 with
            | none => rfl
            | some v => rw [halt] at hs; simp at hs
          · rw [mem_alookup hend hkv]
            rfl
    · rintro ⟨hds, hrow, ⟨v, hv, hval, hdq⟩ | ⟨hnone, hsome, hval⟩⟩
      · obtain ⟨ds0, r0, c0, v0⟩ := m
        cases hds
        cases hrow
        cases hval
        refine Or.inl ⟨(c0, v0), alookup_mem hv, ?_⟩
        rw [if_neg (by rw [hdq]; exact Bool.false_ne_true)]
      · obtain ⟨ds0, r0, c0, v0⟩ := m
        cases hds
        cases hrow
        cases hval
        obtain ⟨w, hw⟩ := Option.isSome_iff_exists.mp hsome
        refine Or.inr ⟨(c0, w), alookup_mem hw, ?_⟩
        rw [if_neg (by rw [hnone]; simp)]
  · rw [hbody]
    simp only [List.map_append]
    have hchanged : ((fields2.filterMap (fun kv =>
        if dequal (jsGet existing kv.1) kv.2 then none
        else some (⟨dataset, id, kv.1, kv.2⟩ : OutMessage))).map
          (fun m => m.column)).Sublist (fields2.map Prod.fst) := by
      refine map_filterMap_sublist ?_ fields2
      intro kv m hf
      by_cases hdq : dequal (jsGet existing kv.1) kv.2 = true
      · rw [if_pos hdq] at hf
        cases hf
      · rw [if_neg hdq] at hf
        cases hf
        rfl
    have hdropped : ((existing.filterMap (fun kv =>
        if (alookup fields2 kv.1).isSome then none
        else some (⟨dataset, id, kv.1, .undefined⟩ : OutMessage))).map
          (fun m => m.column)).Sublist (existing.map Prod.fst) := by
      refine map_filterMap_sublist ?_ existing
      intro kv m hf
      by_cases hs : (alookup fields2 kv.1).isSome
      · rw [if_pos hs] at hf
        cases hf
      · rw [if_neg hs] at hf
        cases hf
        rfl
    rw [List.nodup_append]
    refine ⟨hchanged.nodup hfnd2, hdropped.nodup hend, ?_⟩
    intro c hc1 hc2
    obtain ⟨m1, hm1, hcol1⟩ := List.mem_map.mp hc1
    obtain ⟨m2, hm2, hcol2⟩ := List.mem_map.mp hc2
    obtain ⟨kv1, hkv1, hf1⟩ := List.mem_filterMap.mp hm1
    obtain ⟨kv2, hkv2, hf2⟩ := List.mem_filterMap.mp hm2
    have h1 : (alookup fields2 c).isSome := by
      by_cases hdq : dequal (jsGet existing kv1.1) kv1.2 = true
      · rw [if_pos hdq] at hf1
        cases hf1
      · rw [if_neg hdq] at hf1
        cases hf1
        rw [← hcol1]
        exact (alookup_isSome_iff_mem_keys _ _).mpr
          (List.mem_map.mpr ⟨kv1, hkv1, rfl⟩)
    have h2 : ¬(alookup fields2 c).isSome := by
      by_cases hs : (alookup fields2 kv2.1).isSome
      · rw [if_pos hs] at hf2
        cases hf2
      · rw [if_neg hs] at hf2
        cases hf2
        rw [← hcol2]
        exact hs
    exact h2 h1

/-- Witness for C3 at the spec's concrete scenario inputs. -/
theorem datasetSet_diff_batch_witness :
    ((alookup [(("name" : String), Val.str "yoda"), ("age", Val.num 942)] "id"
        = none ∨
      alookup [(("name" : String), Val.str "yoda"), ("age", Val.num 942)] "id"
        = some (.str "yoda")) ∧
      (([(("name" : String), Val.str "yoda"),
        ("age", Val.num 942)].map Prod.fst).Nodup) ∧
      (((existingRow [] "jedi" "yoda").map Prod.fst).Nodup)) ∧
    (datasetSet [] "jedi" "yoda"
        (.obj [("name", .str "yoda"), ("age", .num 942)]) =
      .ok (datasetSet.datasetSetBody [] "jedi" "yoda"
        (augmentId [("name", .str "yoda"), ("age", .num 942)] "yoda"))) :=
  ⟨⟨Or.inl (by decide), by decide, by decide⟩,
    (datasetSet_diff_batch.1 [] "jedi" "yoda"
      [("name", .str "yoda"), ("age", .num 942)]
      (Or.inl (by decide)) (by decide) (by decide)).1⟩

/-! ## C4: row deletion — tombstone message, mirror marking, revival -/

/-- Claim C4: `delete dataset[id]` emits exactly one `tombstone = true`
message and synchronously tombstones the mirror row (creating it when
absent, retaining its other columns when present); the tombstoned row is
excluded from membership and enumeration and reads as absent; and a
subsequent full row write whose value does not carry a `tombstone` column
revives the row and leaves no tombstone on it. -/
theorem datasetDelete_tombstone_semantics :
    ∀ (mem : Mem) (dataset id : String),
      (datasetDelete mem dataset id).1 =
        [⟨dataset, id, "tombstone", .bool true⟩] ∧
      (∃ row2,
        alookup ((alookup (datasetDelete mem dataset id).2 dataset).getD [])
          id = some row2 ∧
        alookup row2 "tombstone" = some (.bool true) ∧
        ∀ k, k ≠ "tombstone" →
          alookup row2 k = alookup (existingRow mem dataset id) k) ∧
      datasetHas (datasetDelete mem dataset id).2 dataset id = false ∧
      id ∉ datasetOwnKeys (datasetDelete mem dataset id).2 dataset ∧
      datasetRowVisible (datasetDelete mem dataset id).2 dataset id = false ∧
      (∀ (fields : Row) (p : List OutMessage × Mem),
        alookup fields "tombstone" = none →
        datasetSet (datasetDelete mem dataset id).2 dataset id (.obj fields) =
          .ok p →
        datasetHas p.2 dataset id = true ∧
        alookup ((alookup p.2 dataset).getD []) id =
          some (augmentId fields id) ∧
        alookup (augmentId fields id) "tombstone" = none) := by
  intro mem dataset id
  have hmsg : (datasetDelete mem dataset id).1 =
      [⟨dataset, id, "tombstone", .bool true⟩] := rfl
  -- the tombstoned row stored in the mirror
  have hrow2 : ∃ row2,
      alookup ((alookup (datasetDelete mem dataset id).2 dataset).getD [])
        id = some row2 ∧
      alookup row2 "tombstone" = some (.bool true) ∧
      ∀ k, k ≠ "tombstone" →
        alookup row2 k = alookup (existingRow mem dataset id) k := by
    unfold datasetDelete
    cases hr : alookup ((alookup mem dataset).getD []) id with
    | some row =>
      refine ⟨aset row "tombstone" (.bool true), ?_, ?_, ?_⟩
      · simp only
        rw [alookup_aset, if_pos rfl, Option.getD_some, hr, alookup_aset,
          if_pos rfl]
      · rw [alookup_aset, if_pos rfl]
      · intro k hk
        rw [alookup_aset, if_neg (fun h => hk h.symm)]
        unfold existingRow
        rw [hr]
        rfl
    | none =>
      refine ⟨[("tombstone", .bool true)], ?_, ?_, ?_⟩
      · simp only
        rw [alookup_aset, if_pos rfl, Option.getD_some, hr, alookup_aset,
          if_pos rfl]
      · simp [alookup]
      · intro k hk
        unfold existingRow
        rw [hr]
        have hkk : ¬("tombstone" = k) := fun h => hk h.symm
        simp [alookup, hkk]
  obtain ⟨row2, hl, ht, hother⟩ := hrow2
  have hhas : datasetHas (datasetDelete mem dataset id).2 dataset id = false := by
    unfold datasetHas
    have hds : alookup (datasetDelete mem dataset id).2 dataset =
        some ((alookup (datasetDelete mem dataset id).2 dataset).getD []) := by
      unfold datasetDelete
      simp only
      rw [alookup_aset, if_pos rfl]
      rfl
    rw [hds]
    simp only [Option.some_bind]
    rw [hl]
    simp [jsGet, ht, jsTruthy]
  refine ⟨hmsg, ⟨row2, hl, ht, hother⟩, hhas, ?_, hhas, ?_⟩
  · intro hmem
    unfold datasetOwnKeys at hmem
    have := (List.mem_filter.mp hmem).2
    rw [hl] at this
    simp [jsGet, ht, jsTruthy] at this
  · intro fields p hnotomb heq
    have hbodied : ∃ fields2, fields2 = augmentId fields id ∧
        p = datasetSet.datasetSetBody (datasetDelete mem dataset id).2
          dataset id fields2 := by
      simp only [datasetSet] at heq
      cases halt : alookup fields "id" with
      | none =>
        rw [halt] at heq
        refine ⟨aset fields "id" (.str id), ?_, ?_⟩
        · unfold augmentId
          rw [halt]
        · cases heq
          rfl
      | some vid =>
        rw [halt] at heq
        dsimp only at heq
        by_cases hvid : vid = Val.str id
        · subst hvid
          rw [if_pos rfl] at heq
          refine ⟨fields, ?_, ?_⟩
          · unfold augmentId
            rw [halt]
          · cases heq
            rfl
        · rw [if_neg hvid] at heq
          cases heq
    obtain ⟨fields2, hf2, hp⟩ := hbodied
    have hnt2 : alookup fields2 "tombstone" = none := by
      rw [hf2]
      rw [augmentId_lookup_other (by decide)]
      exact hnotomb
    have hlook : alookup ((alookup p.2 dataset).getD []) id = some fields2 := by
      rw [hp]
      simp only [datasetSet.datasetSetBody]
      rw [alookup_aset, if_pos rfl, Option.getD_some, alookup_aset, if_pos rfl]
    refine ⟨?_, ?_, ?_⟩
    · unfold datasetHas
      have hds : alookup p.2 dataset = some ((alookup p.2 dataset).getD []) := by
        rw [hp]
        simp only [datasetSet.datasetSetBody]
        rw [alookup_aset, if_pos rfl]
        rfl
      rw [hds]
      simp only [Option.some_bind]
      rw [hlook]
      simp [jsGet, hnt2, jsTruthy]
    · rw [hlook, hf2]
    · rw [← hf2]
      exact hnt2

/-- Witness for C4 at a concrete input: delete an existing one-column row,
then rewrite it in full. -/
theorem datasetDelete_tombstone_semantics_witness :
    ((alookup [(("name" : String), Val.str "yoda")] "tombstone" = none) ∧
      datasetSet (datasetDelete
          [("jedi", [("yoda", [("name", Val.str "yoda")])])] "jedi" "yoda").2
        "jedi" "yoda" (.obj [("name", .str "yoda")]) =
        .ok ([⟨"jedi", "yoda", "id", .str "yoda"⟩,
              ⟨"jedi", "yoda", "tombstone", .undefined⟩],
          [("jedi", [("yoda",
            [("name", .str "yoda"), ("id", .str "yoda")])])])) ∧
    (datasetHas
        ([("jedi", [("yoda",
          [("name", Val.str "yoda"), ("id", Val.str "yoda")])])] : Mem)
        "jedi" "yoda" = true ∧
      alookup ((alookup
          ([("jedi", [("yoda",
            [("name", Val.str "yoda"), ("id", Val.str "yoda")])])] : Mem)
          "jedi").getD []) "yoda" =
        some (augmentId [("name", .str "yoda")] "yoda") ∧
      alookup (augmentId [("name", .str "yoda")] "yoda") "tombstone" = none) :=
  ⟨⟨rfl, rfl⟩,
    (datasetDelete_tombstone_semantics
        [("jedi", [("yoda", [("name", Val.str "yoda")])])] "jedi"
        "yoda").2.2.2.2.2 [("name", .str "yoda")]
      ([⟨"jedi", "yoda", "id", .str "yoda"⟩,
        ⟨"jedi", "yoda", "tombstone", .undefined⟩],
        [("jedi", [("yoda", [("name", .str "yoda"), ("id", .str "yoda")])])])
      rfl rfl⟩

/-! ## C10: row-level writes are unvalidated; reads enforce flatness -/

/-- The mirror value at one cell, distinguishing a missing dataset, row or
column from a stored `undefined`. -/
def mirrorCell (mem : Mem) (dataset id prop : String) : Option Val :=
  ((alookup mem dataset).bind (fun ds => alookup ds id)).bind
    (fun row => alookup row prop)

/-- Claim C10: `row[prop] = v` never raises: it emits exactly one message
carrying `v` and stores `v` in the mirror row unvalidated, whatever `v` is
(the model's `rowSet` is a total function); the flat-primitive-row rule is
enforced only on a later accessor read, which errors exactly when the own
value read is non-primitive and returns it otherwise. -/
theorem rowSet_unvalidated_read_enforces :
    ∀ (mem : Mem) (dataset id prop : String) (v : Val),
      (rowSet mem dataset id prop v).1 = [⟨dataset, id, prop, v⟩] ∧
      mirrorCell (rowSet mem dataset id prop v).2 dataset id prop = some v ∧
      (isPrimitive v = false →
        rowGet (rowSet mem dataset id prop v).2 dataset id prop =
          .error ("non primitive value for dataset \"" ++ dataset
            ++ "\" row with id \"" ++ id ++ "\" and property \"" ++ prop
            ++ "\" of type \"" ++ jsTypeof v ++ "\" and value \""
            ++ jsString v ++ "\"")) ∧
      (isPrimitive v = true →
        rowGet (rowSet mem dataset id prop v).2 dataset id prop = .ok v) := by
  intro mem dataset id prop v
  have hrow : (alookup (rowSet mem dataset id prop v).2 dataset).bind
      (fun ds => alookup ds id) =
      some (aset ((alookup ((alookup mem dataset).getD []) id).getD
        [("id", .str id)]) prop v) := by
    unfold rowSet
    simp only
    rw [alookup_aset, if_pos rfl, Option.some_bind, alookup_aset, if_pos rfl]
  have hcell : mirrorCell (rowSet mem dataset id prop v).2 dataset id prop =
      some v := by
    unfold mirrorCell
    rw [hrow]
    simp only [Option.some_bind]
    rw [alookup_aset, if_pos rfl]
  refine ⟨rfl, hcell, ?_, ?_⟩
  · intro hprim
    unfold rowGet
    rw [hrow]
    simp [alookup_aset, hprim]
  · intro hprim
    unfold rowGet
    rw [hrow]
    simp [alookup_aset, hprim]

/-- Witness for C10 at a concrete input: writing a nested object succeeds
and the later read of that column errors. -/
theorem rowSet_unvalidated_read_enforces_witness :
    (isPrimitive (Val.obj [("lightsaber", .str "green")]) = false) ∧
    ((rowSet [] "jedi" "yoda" "gear"
        (Val.obj [("lightsaber", .str "green")])).1 =
      [⟨"jedi", "yoda", "gear", Val.obj [("lightsaber", .str "green")]⟩] ∧
      mirrorCell (rowSet [] "jedi" "yoda" "gear"
          (Val.obj [("lightsaber", .str "green")])).2 "jedi" "yoda" "gear" =
        some (Val.obj [("lightsaber", .str "green")]) ∧
      rowGet (rowSet [] "jedi" "yoda" "gear"
          (Val.obj [("lightsaber", .str "green")])).2 "jedi" "yoda" "gear" =
        .error ("non primitive value for dataset \"" ++ "jedi"
          ++ "\" row with id \"" ++ "yoda" ++ "\" and property \"" ++ "gear"
          ++ "\" of type \"" ++ jsTypeof (Val.obj [("lightsaber", .str "green")])
          ++ "\" and value \""
          ++ jsString (Val.obj [("lightsaber", .str "green")]) ++ "\"")) :=
  ⟨rfl,
    (rowSet_unvalidated_read_enforces [] "jedi" "yoda" "gear"
      (Val.obj [("lightsaber", .str "green")])).1,
    (rowSet_unvalidated_read_enforces [] "jedi" "yoda" "gear"
      (Val.obj [("lightsaber", .str "green")])).2.1,
    (rowSet_unvalidated_read_enforces [] "jedi" "yoda" "gear"
      (Val.obj [("lightsaber", .str "green")])).2.2.1 rfl⟩

/-! ## C8: the mirror id invariant (amended) -/

theorem idOk_iff (mem : Mem) : idOk mem = true ↔
    ∀ p ∈ mem, ∀ q ∈ p.2, alookup q.2 "id" = some (.str q.1) := by
  unfold idOk
  rw [List.all_eq_true]
  constructor
  · intro h p hp q hq
    have h2 := h p hp
    rw [List.all_eq_true] at h2
    exact of_decide_eq_true (h2 q hq)
  · intro h p hp
    rw [List.all_eq_true]
    intro q hq
    exact decide_eq_true (h p hp q hq)

theorem rows_id_ok_of_idOk {mem : Mem} (h : idOk mem = true) (dataset : String) :
    ∀ q ∈ (alookup mem dataset).getD [], alookup q.2 "id" = some (.str q.1) := by
  intro q hq
  cases hds : alookup mem dataset with
  | none =>
    rw [hds] at hq
    simp at hq
  | some ds =>
    rw [hds] at hq
    exact (idOk_iff mem).mp h (dataset, ds) (alookup_mem hds) q hq

theorem idOk_aset_dataset {mem : Mem} {dataset : String} {ds : Dataset}
    (h : idOk mem = true)
    (hds : ∀ q ∈ ds, alookup q.2 "id" = some (.str q.1)) :
    idOk (aset mem dataset ds) = true := by
  rw [idOk_iff]
  intro p hp
  rcases mem_aset hp with hmem | ⟨_, hv⟩
  · exact (idOk_iff mem).mp h p hmem
  · intro q hq
    rw [hv] at hq
    exact hds q hq

theorem rows_id_ok_aset {ds : Dataset} {id : String} {row : Row}
    (h : ∀ q ∈ ds, alookup q.2 "id" = some (.str q.1))
    (hrow : alookup row "id" = some (.str id)) :
    ∀ q ∈ aset ds id row, alookup q.2 "id" = some (.str q.1) := by
  intro q hq
  obtain ⟨qk, qr⟩ := q
  rcases mem_aset hq with hmem | ⟨hk, hv⟩
  · exact h (qk, qr) hmem
  · subst hk
    subst hv
    exact hrow

/-- Claim C8, amended: the id invariant (`idOk`: every mirror row carries
`id` = its row key) is established and preserved by dataset-level writes, by
row-level column writes to columns other than `id`, by deletion of an
*existing* row, and by startup load of Latest Index records whose
`id`-column messages carry the row key.  (Deleting an absent row creates an
id-less `tombstone` row — see the counterexample — and a row-level write to
the `id` column itself stores its value unvalidated.) -/
theorem mirror_id_invariant_amended :
    (∀ (mem : Mem) (dataset id : String) (fields : Row)
        (p : List OutMessage × Mem),
      idOk mem = true →
      datasetSet mem dataset id (.obj fields) = .ok p →
      idOk p.2 = true) ∧
    (∀ (mem : Mem) (dataset id prop : String) (v : Val),
      idOk mem = true → prop ≠ "id" →
      idOk (rowSet mem dataset id prop v).2 = true) ∧
    (∀ (mem : Mem) (dataset id : String),
      idOk mem = true →
      (alookup ((alookup mem dataset).getD []) id).isSome →
      idOk (datasetDelete mem dataset id).2 = true) ∧
    (∀ (mem : Mem) (latest : List Message),
      idOk mem = true →
      (∀ m ∈ latest, m.column = "id" → m.value = .str m.row) →
      idOk (loadDatasetMem mem latest) = true) := by
  refine ⟨?_, ?_, ?_, ?_⟩
  · intro mem dataset id fields p h heq
    have hbodied : ∃ fields2, alookup fields2 "id" = some (.str id) ∧
        p.2 = aset mem dataset
          (aset ((alookup mem dataset).getD []) id fields2) := by
      simp only [datasetSet] at heq
      cases halt : alookup fields "id" with
      | none =>
        rw [halt] at heq
        cases heq
        refine ⟨aset fields "id" (.str id), ?_, rfl⟩
        rw [alookup_aset, if_pos rfl]
      | some vid =>
        rw [halt] at heq
        dsimp only at heq
        by_cases hvid : vid = Val.str id
        · subst hvid
          rw [if_pos rfl] at heq
          cases heq
          exact ⟨fields, halt, rfl⟩
        · rw [if_neg hvid] at heq
          cases heq
    obtain ⟨fields2, hf2, hp2⟩ := hbodied
    rw [hp2]
    exact idOk_aset_dataset h (rows_id_ok_aset (rows_id_ok_of_idOk h dataset) hf2)
  · intro mem dataset id prop v h hprop
    unfold rowSet
    simp only
    have hrows := rows_id_ok_of_idOk h dataset
    refine idOk_aset_dataset h (rows_id_ok_aset hrows ?_)
    rw [alookup_aset, if_neg hprop]
    cases hr : alookup ((alookup mem dataset).getD []) id with
    | none => simp [alookup]
    | some row =>
      simp only [Option.getD_some]
      exact hrows (id, row) (alookup_mem hr)
  · intro mem dataset id h hsome
    unfold datasetDelete
    simp only
    have hrows := rows_id_ok_of_idOk h dataset
    cases hr : alookup ((alookup mem dataset).getD []) id with
    | none => rw [hr] at hsome; simp at hsome
    | some row =>
      refine idOk_aset_dataset h (rows_id_ok_aset hrows ?_)
      rw [alookup_aset, if_neg (by decide)]
      exact hrows (id, row) (alookup_mem hr)
  · intro mem latest
    induction latest generalizing mem with
    | nil => intro h _; exact h
    | cons m ms ih =>
      intro h hcols
      have hstep : idOk (loadOne mem m) = true := by
        unfold loadOne
        have hrows := rows_id_ok_of_idOk h m.dataset
        refine idOk_aset_dataset h (rows_id_ok_aset hrows ?_)
        by_cases hc : m.column = "id"
        · rw [alookup_aset, if_pos hc]
          rw [hcols m (List.mem_cons_self _ _) hc]
        · rw [alookup_aset, if_neg hc]
          cases hr : alookup ((alookup mem m.dataset).getD []) m.row with
          | none => simp [alookup]
          | some row =>
            simp only [Option.getD_some]
            exact hrows (m.row, row) (alookup_mem hr)
      exact ih (loadOne mem m) hstep
        (fun m2 hm2 => hcols m2 (List.mem_cons_of_mem _ hm2))

/-- Counterexample to C8 as stated: deleting an absent row creates a mirror
row holding only `tombstone: true` and no `id` column, so the id invariant
does not survive every mirror-mutating operation. -/
theorem mirror_id_invariant_counterexample :
    alookup ((alookup (datasetDelete [] "jedi" "yoda").2 "jedi").getD [])
      "yoda" = some [("tombstone", .bool true)] ∧
    alookup [(("tombstone" : String), Val.bool true)] "id" = none ∧
    idOk (datasetDelete [] "jedi" "yoda").2 = false := by
  refine ⟨rfl, rfl, rfl⟩

/-- Witness for the amended C8 at a concrete input: loading one id-consistent
Latest Index record into an empty mirror. -/
theorem mirror_id_invariant_amended_witness :
    (idOk [] = true ∧
      (∀ m ∈ [(⟨"t1", "jedi", "yoda", "name", Val.str "yoda"⟩ : Message)],
        m.column = "id" → m.value = .str m.row)) ∧
    idOk (loadDatasetMem []
      [⟨"t1", "jedi", "yoda", "name", Val.str "yoda"⟩]) = true :=
  ⟨⟨rfl, by decide⟩,
    mirror_id_invariant_amended.2.2.2 []
      [⟨"t1", "jedi", "yoda", "name", Val.str "yoda"⟩] rfl (by decide)⟩

/-! ## C9: row enumeration (amended) -/

theorem rowEnumKeysAux_all_truthy (mem : Mem) (dataset id : String)
    (row : Row)
    (hrow : (alookup mem dataset).bind (fun ds => alookup ds id) = some row) :
    ∀ ks : List String,
      (∀ k ∈ ks, ∃ v, alookup row k = some v ∧
        jsTruthy v = true ∧ isPrimitive v = true) →
      rowEnumKeysAux mem dataset id ks = .ok ks
  | [], _ => rfl
  | k :: ks, hks => by
    obtain ⟨v, hv, htr, hpr⟩ := hks k (List.mem_cons_self _ _)
    have hdesc : rowGetOwnPropertyDescriptor mem dataset id k = .ok (some v) := by
      unfold rowGetOwnPropertyDescriptor rowGet
      rw [hrow]
      dsimp only
      rw [hv]
      simp [hpr, htr]
    have hrest := rowEnumKeysAux_all_truthy mem dataset id row hrow ks
      (fun k2 hk2 => hks k2 (List.mem_cons_of_mem _ hk2))
    unfold rowEnumKeysAux
    rw [hdesc, hrest]

/-- Claim C9, amended: the `ownKeys` trap reports exactly the mirror row's
own column names whatever their values; but full JavaScript enumeration
(own keys filtered through the descriptor trap, as `Object.keys` and
`for...in` do) yields exactly those column names only when every column
value is truthy and primitive — a falsy column is omitted (see the
counterexample) and an own non-primitive value makes enumeration throw. -/
theorem row_enumeration_amended :
    (∀ (mem : Mem) (dataset id : String) (row : Row),
      (alookup mem dataset).bind (fun ds => alookup ds id) = some row →
      rowOwnKeys mem dataset id = row.map Prod.fst) ∧
    (∀ (mem : Mem) (dataset id : String) (row : Row),
      (alookup mem dataset).bind (fun ds => alookup ds id) = some row →
      (∀ kv ∈ row, jsTruthy kv.2 = true ∧ isPrimitive kv.2 = true) →
      rowEnumerate mem dataset id = .ok (row.map Prod.fst)) := by
  constructor
  · intro mem dataset id row hrow
    unfold rowOwnKeys
    rw [hrow]
  · intro mem dataset id row hrow hvals
    unfold rowEnumerate
    have hkeys : rowOwnKeys mem dataset id = row.map Prod.fst := by
      unfold rowOwnKeys
      rw [hrow]
    rw [hkeys]
    refine rowEnumKeysAux_all_truthy mem dataset id row hrow _ ?_
    intro k hk
    obtain ⟨kv, hkv, hfst⟩ := List.mem_map.mp hk
    have hsome : (alookup row k).isSome :=
      (alookup_isSome_iff_mem_keys _ _).mpr hk
    obtain ⟨v, hv⟩ := Option.isSome_iff_exists.mp hsome
    obtain ⟨htr, hpr⟩ := hvals (k, v) (alookup_mem hv)
    exact ⟨v, hv, htr, hpr⟩

/-- Counterexample to C9 as stated: a row owning a falsy column
(`happy: false`) enumerates, through the accessor's descriptor filter, to
just `id` — not to all its own column names. -/
theorem row_enumeration_counterexample :
    rowOwnKeys
      [("jedi", [("yoda", [("id", .str "yoda"), ("happy", .bool false)])])]
      "jedi" "yoda" = ["id", "happy"] ∧
    rowEnumerate
      [("jedi", [("yoda", [("id", .str "yoda"), ("happy", .bool false)])])]
      "jedi" "yoda" = .ok ["id"] :=
  ⟨rfl, rfl⟩

/-- Witness for the amended C9 at a concrete input: a row of truthy
primitives enumerates to all its column names. -/
theorem row_enumeration_amended_witness :
    ((alookup
        ([("jedi", [("yoda",
          [("id", Val.str "yoda"), ("name", Val.str "yoda")])])] : Mem)
        "jedi").bind (fun ds => alookup ds "yoda") =
      some [("id", Val.str "yoda"), ("name", Val.str "yoda")] ∧
      (∀ kv ∈ [(("id" : String), Val.str "yoda"), ("name", Val.str "yoda")],
        jsTruthy kv.2 = true ∧ isPrimitive kv.2 = true)) ∧
    rowEnumerate
      [("jedi", [("yoda", [("id", Val.str "yoda"), ("name", Val.str "yoda")])])]
      "jedi" "yoda" =
      .ok ([(("id" : String), Val.str "yoda"),
        ("name", Val.str "yoda")].map Prod.fst) :=
  ⟨⟨rfl, by decide⟩,
    row_enumeration_amended.2
      [("jedi", [("yoda", [("id", Val.str "yoda"), ("name", Val.str "yoda")])])]
      "jedi" "yoda" [("id", Val.str "yoda"), ("name", Val.str "yoda")]
      rfl (by decide)⟩

end KombatIndexedDB
